import Mathlib

/-!
Verification of the spike-removal core (`src/removespikes/core.py`).

The embedding models planar coordinates as pairs of real numbers and the three
core functions of class `RemoveSpikes`:

* `calculateAngle`  — `RemoveSpikes._calculate_angle` (core.py lines 10-45);
* `isSpike`         — `RemoveSpikes._is_spike` (core.py lines 47-69);
* `removeSpikesFromGeometry` — `RemoveSpikes._remove_spikes_from_geometry`
  (core.py lines 71-140).

Python floats are modelled as real numbers, exceptions as `Except`, and the
shapely geometry values as a tagged union `Geometry` over the coordinate
sequences the code actually reads (a LineString's `coords`, a Polygon's
`exterior.coords`, and an opaque `other` tag for every other geometry kind).
-/

open Classical

/-- Coordinate: a pair (x, y) of real numbers, the source's `Coord`. -/
abbrev Coord : Type := ℝ × ℝ

/-- Exceptions that can escape `_remove_spikes_from_geometry`:
`AttributeError` (a geometry without the accessed attribute, e.g. `.exterior`
on a Point), `ValueError` (shapely constructor rejecting a coordinate list)
and `IndexError` (list index out of range). -/
inductive GeomError where
  | attributeError
  | valueError
  | indexError
deriving DecidableEq

/-- The geometry values the filter can receive: a LineString carrying its
coordinate sequence, a Polygon carrying its exterior-ring coordinate sequence,
or any other shapely geometry (Point, MultiPolygon, ...), of which the code
only ever reads `is_empty`. -/
inductive Geometry where
  | line (coords : List Coord)
  | polygon (exteriorCoords : List Coord)
  | other (empty : Bool)

/-- Shapely `geometry.is_empty`: a LineString or Polygon is empty iff it has
no coordinates; for other geometry kinds we carry the flag opaquely. -/
def Geometry.isEmptyG : Geometry → Bool
  | .line cs => cs.isEmpty
  | .polygon cs => cs.isEmpty
  | .other e => e

/-- Python list indexing `xs[i]` for a nonnegative index: the element at `i`,
or `IndexError` when `i` is out of range. -/
def pyGet (xs : List Coord) (i : ℕ) : Except GeomError Coord :=
  match xs.get? i with
  | some x => .ok x
  | none => .error .indexError

/-- Python list indexing `xs[-k]` for a negative index `-k` (`k ≥ 1`): the
element at `len(xs) - k`, or `IndexError` when `k` is out of range. -/
def pyGetNeg (xs : List Coord) (k : ℕ) : Except GeomError Coord :=
  if 1 ≤ k ∧ k ≤ xs.length then pyGet xs (xs.length - k) else .error .indexError

/-- Shapely `LineString(cs)`: constructible from zero or at least two
coordinates; a single coordinate raises `ValueError`. -/
def mkLineString (cs : List Coord) : Except GeomError Geometry :=
  if cs.length = 1 then .error .valueError else .ok (.line cs)

/-- Shapely ring closure: a polygon shell whose last coordinate differs from
its first gets the first coordinate appended. -/
noncomputable def closeRing (cs : List Coord) : List Coord :=
  if cs.getLast? = cs.head? then cs else cs ++ cs.take 1

/-- Shapely `Polygon(cs)`: the empty list gives the empty polygon; otherwise
the shell is closed (`closeRing`) and a linear ring needs at least 4
coordinates after closure, else `ValueError` is raised. -/
noncomputable def mkPolygon (cs : List Coord) : Except GeomError Geometry :=
  if cs = [] then .ok (.polygon [])
  else if (closeRing cs).length < 4 then .error .valueError
  else .ok (.polygon (closeRing cs))

/-- Planar Euclidean distance, the source's
`((a[0] - b[0]) ** 2 + (a[1] - b[1]) ** 2) ** 0.5` (the exponent `0.5` on a
nonnegative base is the square root). -/
noncomputable def euclid (p q : Coord) : ℝ :=
  Real.sqrt ((p.1 - q.1) ^ 2 + (p.2 - q.2) ^ 2)

/-- Embedding of `RemoveSpikes._calculate_angle`: vectors BA and BC, their dot
product and magnitudes; raises (`ZeroDivisionError`) when the product of the
magnitudes is zero, otherwise `degrees(arccos(clip(cos, -1, 1)))`, where
`np.clip(x, -1, 1) = max (-1) (min 1 x)` and `degrees r = r * (180 / π)`. -/
noncomputable def calculateAngle (a b c : Coord) : Except Unit ℝ :=
  let BA : Coord := (a.1 - b.1, a.2 - b.2)
  let BC : Coord := (c.1 - b.1, c.2 - b.2)
  let dotProduct : ℝ := BA.1 * BC.1 + BA.2 * BC.2
  let magnitudeBA : ℝ := Real.sqrt (BA.1 ^ 2 + BA.2 ^ 2)
  let magnitudeBC : ℝ := Real.sqrt (BC.1 ^ 2 + BC.2 ^ 2)
  let magProduct : ℝ := magnitudeBA * magnitudeBC
  if magProduct = 0 then .error ()
  else
    let cosAngle : ℝ := dotProduct / magProduct
    let clipped : ℝ := max (-1) (min 1 cosAngle)
    .ok (Real.arccos clipped * (180 / Real.pi))

/-- The value `_calculate_angle` returns on the non-raising branch, as a total
function (on the raising branch this is junk never used by the code). -/
noncomputable def angleValue (a b c : Coord) : ℝ :=
  Real.arccos (max (-1) (min 1
    (((a.1 - b.1) * (c.1 - b.1) + (a.2 - b.2) * (c.2 - b.2)) /
      (Real.sqrt ((a.1 - b.1) ^ 2 + (a.2 - b.2) ^ 2) *
        Real.sqrt ((c.1 - b.1) ^ 2 + (c.2 - b.2) ^ 2))))) * (180 / Real.pi)

/-- Embedding of `RemoveSpikes._is_spike`: a failing angle computation is
absorbed (`return False`); otherwise the vertex is a spike iff the angle is
below `angleThreshold` and both adjacent edges are longer than
`minDistance`. -/
noncomputable def isSpike (a b c : Coord) (angleThreshold minDistance : ℝ) : Prop :=
  match calculateAngle a b c with
  | .error _ => False
  | .ok angle =>
      angle < angleThreshold ∧ euclid a b > minDistance ∧ euclid b c > minDistance

/-- Embedding of the vertex loop of `_remove_spikes_from_geometry`
(core.py lines 122-131): for `i in range(1, len(coords) - 1)` append
`coords[i]` to the accumulator iff
`_is_spike(coords[i-1], coords[i], coords[i+1], ...)` is false. All triples
are read from the original `coords`, never from the accumulator. -/
noncomputable def loopAppend (coords : List Coord) (angleThreshold minDistance : ℝ)
    (init : List Coord) : List Coord :=
  (List.range' 1 (coords.length - 2)).foldl
    (fun newCoords i =>
      if isSpike (coords.getD (i - 1) default) (coords.getD i default)
          (coords.getD (i + 1) default) angleThreshold minDistance
      then newCoords
      else newCoords ++ [coords.getD i default])
    init

/-- Declarative description of the retained interior vertices: the interior
coordinates `coords[i]`, `1 ≤ i ≤ n - 2`, whose original-neighbour triple is
not a spike, in order. The claims compare the loop of the source against this
list. -/
noncomputable def keptInterior (coords : List Coord) (angleThreshold minDistance : ℝ) :
    List Coord :=
  (List.range' 1 (coords.length - 2)).filterMap fun i =>
    if isSpike (coords.getD (i - 1) default) (coords.getD i default)
        (coords.getD (i + 1) default) angleThreshold minDistance
    then none
    else some (coords.getD i default)

/-- Embedding of `RemoveSpikes._remove_spikes_from_geometry`. Notes on the
translation:

* the source line `if not is_line() and not is_polygon:` tests the function
  object `is_polygon` without calling it, so the condition is always false and
  the intended pass-through for other geometry kinds is dead code; a non-empty
  geometry that is neither a LineString nor a Polygon therefore reaches
  `list(geometry.exterior.coords)` and raises `AttributeError`;
* `new_coords = [coords[0]]` and the junction test
  `_is_spike(coords[-2], coords[0], coords[1], ...)` read the list in the
  order `coords[0]`, `coords[-2]`, `coords[1]`, which is the order the
  `Except` matches below take;
* for a LineString `coords[-1]` is appended after the loop; for a Polygon
  nothing is appended after the loop and the constructor re-closes the ring. -/
noncomputable def removeSpikesFromGeometry (geometry : Geometry)
    (angleThreshold minDistance : ℝ) : Except GeomError Geometry :=
  if geometry.isEmptyG then .ok geometry
  else
    match geometry with
    | .other _ => .error .attributeError
    | .line coords =>
        match pyGet coords 0 with
        | .error e => .error e
        | .ok c0 =>
            let newCoords := loopAppend coords angleThreshold minDistance [c0]
            match pyGetNeg coords 1 with
            | .error e => .error e
            | .ok lastC => mkLineString (newCoords ++ [lastC])
    | .polygon coords =>
        match pyGet coords 0 with
        | .error e => .error e
        | .ok c0 =>
            match pyGetNeg coords 2 with
            | .error e => .error e
            | .ok prevJ =>
                match pyGet coords 1 with
                | .error e => .error e
                | .ok nextJ =>
                    let start :=
                      if isSpike prevJ c0 nextJ angleThreshold minDistance
                      then ([] : List Coord)
                      else [c0]
                    mkPolygon (loopAppend coords angleThreshold minDistance start)

/-- Well-formedness of a shapely Polygon exterior ring: either empty, or at
least 4 coordinates with the first equal to the last (shapely's `LinearRing`
constructor enforces both). -/
def RingWF (cs : List Coord) : Prop :=
  cs = [] ∨ (4 ≤ cs.length ∧ cs.getLastD default = cs.getD 0 default)

/-- A magnitude `√((p.1 - q.1)² + (p.2 - q.2)²)` vanishes exactly on equal
points. -/
lemma sqrt_mag_eq_zero_iff (p q : Coord) :
    Real.sqrt ((p.1 - q.1) ^ 2 + (p.2 - q.2) ^ 2) = 0 ↔ p = q := by
  rw [Real.sqrt_eq_zero (by positivity)]
  constructor
  · intro h
    have h1 : (p.1 - q.1) ^ 2 = 0 ∧ (p.2 - q.2) ^ 2 = 0 := by
      constructor <;> nlinarith [sq_nonneg (p.1 - q.1), sq_nonneg (p.2 - q.2)]
    have hx : p.1 = q.1 := by nlinarith [h1.1]
    have hy : p.2 = q.2 := by nlinarith [h1.2]
    exact Prod.ext hx hy
  · intro h; subst h; ring

/-- The guard `mag_product == 0` of `_calculate_angle` fires exactly on a
degenerate triple (`a == b` or `b == c`). -/
lemma magProduct_eq_zero_iff (a b c : Coord) :
    Real.sqrt ((a.1 - b.1) ^ 2 + (a.2 - b.2) ^ 2) *
      Real.sqrt ((c.1 - b.1) ^ 2 + (c.2 - b.2) ^ 2) = 0 ↔ a = b ∨ b = c := by
  rw [mul_eq_zero, sqrt_mag_eq_zero_iff a b, sqrt_mag_eq_zero_iff c b]
  constructor
  · rintro (h | h)
    · exact Or.inl h
    · exact Or.inr h.symm
  · rintro (h | h)
    · exact Or.inl h
    · exact Or.inr h.symm

/-- Closed form of `_calculate_angle`: it raises exactly on a degenerate
triple and otherwise returns `angleValue`. -/
lemma calculateAngle_eq (a b c : Coord) :
    calculateAngle a b c =
      if a = b ∨ b = c then .error () else .ok (angleValue a b c) := by
  unfold calculateAngle angleValue
  by_cases h : a = b ∨ b = c
  · rw [if_pos ((magProduct_eq_zero_iff a b c).mpr h), if_pos h]
  · rw [if_neg (fun hz => h ((magProduct_eq_zero_iff a b c).mp hz)), if_neg h]

/-- The angle value is never negative. -/
lemma angleValue_nonneg (a b c : Coord) : 0 ≤ angleValue a b c := by
  unfold angleValue
  have h1 := Real.arccos_nonneg (max (-1) (min 1
    (((a.1 - b.1) * (c.1 - b.1) + (a.2 - b.2) * (c.2 - b.2)) /
      (Real.sqrt ((a.1 - b.1) ^ 2 + (a.2 - b.2) ^ 2) *
        Real.sqrt ((c.1 - b.1) ^ 2 + (c.2 - b.2) ^ 2)))))
  have h2 : (0:ℝ) < 180 / Real.pi := by positivity
  positivity

/-- The angle value never exceeds 180 degrees. -/
lemma angleValue_le_180 (a b c : Coord) : angleValue a b c ≤ 180 := by
  unfold angleValue
  have h1 := Real.arccos_le_pi (max (-1) (min 1
    (((a.1 - b.1) * (c.1 - b.1) + (a.2 - b.2) * (c.2 - b.2)) /
      (Real.sqrt ((a.1 - b.1) ^ 2 + (a.2 - b.2) ^ 2) *
        Real.sqrt ((c.1 - b.1) ^ 2 + (c.2 - b.2) ^ 2)))))
  have h2 : (0:ℝ) < 180 / Real.pi := by positivity
  calc Real.arccos _ * (180 / Real.pi) ≤ Real.pi * (180 / Real.pi) :=
        mul_le_mul_of_nonneg_right h1 (le_of_lt h2)
    _ = 180 := by field_simp

/-- Full characterization of `_is_spike`: true exactly on non-degenerate
triples whose angle is below the threshold and whose adjacent edges both
exceed the minimum distance. -/
lemma isSpike_iff (a b c : Coord) (t m : ℝ) :
    isSpike a b c t m ↔
      a ≠ b ∧ b ≠ c ∧ angleValue a b c < t ∧ euclid a b > m ∧ euclid b c > m := by
  unfold isSpike
  rw [calculateAngle_eq]
  by_cases h : a = b ∨ b = c
  · rw [if_pos h]
    simp only [false_iff]
    rintro ⟨hab, hbc, -⟩
    rcases h with h | h
    · exact hab h
    · exact hbc h
  · rw [if_neg h]
    push_neg at h
    simp [h.1, h.2]

/-- With a non-positive angle threshold nothing is ever a spike. -/
lemma not_isSpike_of_nonpos {t : ℝ} (ht : t ≤ 0) (a b c : Coord) (m : ℝ) :
    ¬ isSpike a b c t m := by
  rw [isSpike_iff]
  rintro ⟨-, -, hlt, -⟩
  exact absurd (lt_of_le_of_lt (angleValue_nonneg a b c) hlt) (not_lt.mpr ht)

/-- An append-if-kept left fold equals the initial accumulator followed by the
corresponding `filterMap`. -/
lemma foldl_if_append (p : ℕ → Prop) (g : ℕ → Coord) :
    ∀ (l : List ℕ) (init : List Coord),
      l.foldl (fun acc i => if p i then acc else acc ++ [g i]) init
        = init ++ l.filterMap (fun i => if p i then none else some (g i))
  | [], init => by simp
  | i :: l, init => by
      by_cases h : p i
      · simp only [List.foldl_cons, if_pos h, List.filterMap_cons, foldl_if_append p g l]
      · simp only [List.foldl_cons, if_neg h, List.filterMap_cons, foldl_if_append p g l,
          List.append_assoc, List.singleton_append]

/-- The imperative loop of the source equals the declarative retained-interior
list appended to its initial accumulator. -/
lemma loopAppend_eq (coords : List Coord) (t m : ℝ) (init : List Coord) :
    loopAppend coords t m init = init ++ keptInterior coords t m := by
  unfold loopAppend keptInterior
  exact foldl_if_append _ _ _ init

/-- In-range Python indexing returns the element. -/
lemma pyGet_ok (xs : List Coord) (i : ℕ) (h : i < xs.length) :
    pyGet xs i = .ok (xs.getD i default) := by
  unfold pyGet
  rw [List.get?_eq_get h]
  simp only [List.get_eq_getElem]
  rw [List.getD_eq_getElem xs default h]

/-- `xs[0]` on a non-empty list. -/
lemma pyGet_zero (xs : List Coord) (h : xs ≠ []) :
    pyGet xs 0 = .ok (xs.getD 0 default) :=
  pyGet_ok xs 0 (List.length_pos.mpr h)

/-- `xs[-1]` on a non-empty list is its last element. -/
lemma pyGetNeg_one (xs : List Coord) (h : xs ≠ []) :
    pyGetNeg xs 1 = .ok (xs.getD (xs.length - 1) default) := by
  have hl : 1 ≤ xs.length := List.length_pos.mpr h
  unfold pyGetNeg
  rw [if_pos ⟨le_refl 1, hl⟩]
  exact pyGet_ok xs (xs.length - 1) (by omega)

/-- `xs[-2]` on a list with at least two elements. -/
lemma pyGetNeg_two (xs : List Coord) (h : 2 ≤ xs.length) :
    pyGetNeg xs 2 = .ok (xs.getD (xs.length - 2) default) := by
  unfold pyGetNeg
  rw [if_pos ⟨by omega, h⟩]
  exact pyGet_ok xs (xs.length - 2) (by omega)

/-- Unfolding of the filter on a non-empty LineString: the first coordinate,
the retained interior, then the last coordinate, wrapped back into a
LineString (whose constructor cannot fail here). -/
lemma line_filter (cs : List Coord) (t m : ℝ) (h : cs ≠ []) :
    removeSpikesFromGeometry (.line cs) t m =
      .ok (.line (cs.getD 0 default ::
        (keptInterior cs t m ++ [cs.getD (cs.length - 1) default]))) := by
  unfold removeSpikesFromGeometry
  have he : (Geometry.line cs).isEmptyG = false := by
    simp [Geometry.isEmptyG, h]
  rw [he]
  simp only [Bool.false_eq_true, if_false]
  rw [pyGet_zero cs h, pyGetNeg_one cs h]
  simp only [loopAppend_eq]
  unfold mkLineString
  rw [if_neg (by simp)]
  simp [List.append_assoc]

/-- Unfolding of the filter on a Polygon whose ring has at least two
coordinates: junction decision first, then the retained interior, handed to
the Polygon constructor. -/
lemma polygon_filter (cs : List Coord) (t m : ℝ) (h : 2 ≤ cs.length) :
    removeSpikesFromGeometry (.polygon cs) t m =
      mkPolygon ((if isSpike (cs.getD (cs.length - 2) default) (cs.getD 0 default)
          (cs.getD 1 default) t m then ([] : List Coord) else [cs.getD 0 default]) ++
        keptInterior cs t m) := by
  have hne : cs ≠ [] := by
    intro hc
    rw [hc] at h
    simp at h
  unfold removeSpikesFromGeometry
  have he : (Geometry.polygon cs).isEmptyG = false := by
    simp [Geometry.isEmptyG, hne]
  rw [he]
  simp only [Bool.false_eq_true, if_false]
  rw [pyGet_zero cs hne, pyGetNeg_two cs h, pyGet_ok cs 1 (by omega)]
  simp only [loopAppend_eq]

/-- A `filterMap` that never drops is a `map`. -/
lemma filterMap_no_drop (p : ℕ → Prop) (g : ℕ → Coord) (hp : ∀ i, ¬ p i) :
    ∀ l : List ℕ, (l.filterMap fun i => if p i then none else some (g i)) = l.map g
  | [] => by simp
  | x :: xs => by
      rw [List.filterMap_cons, if_neg (hp x), List.map_cons,
        filterMap_no_drop p g hp xs]

/-- When nothing is a spike the retained interior is all of the interior. -/
lemma keptInterior_of_no_spike (cs : List Coord) (t m : ℝ)
    (h : ∀ a b c : Coord, ¬ isSpike a b c t m) :
    keptInterior cs t m =
      (List.range' 1 (cs.length - 2)).map fun i => cs.getD i default := by
  unfold keptInterior
  exact filterMap_no_drop _ _ (fun i => h _ _ _) _

/-- The head of a list of length at least two, followed by its interior
elements, is the list without its last element. -/
lemma head_cons_interior_eq_dropLast (cs : List Coord) (h : 2 ≤ cs.length) :
    cs.getD 0 default ::
        ((List.range' 1 (cs.length - 2)).map fun i => cs.getD i default) =
      cs.dropLast := by
  apply List.ext_getElem
  · simp
    omega
  · intro i h1 h2
    match i with
    | 0 =>
        simp only [List.getElem_cons_zero, List.getElem_dropLast]
        rw [List.getD_eq_getElem cs default (by omega)]
    | j + 1 =>
        simp only [List.getElem_cons_succ, List.getElem_map, List.getElem_range',
          List.getElem_dropLast, one_mul]
        have hj : 1 + j < cs.length := by
          simp at h1
          omega
        rw [List.getD_eq_getElem cs default hj]
        congr 1
        omega

/-- A non-empty list is its `dropLast` followed by its last element. -/
lemma dropLast_append_getD (cs : List Coord) (h : cs ≠ []) :
    cs.dropLast ++ [cs.getD (cs.length - 1) default] = cs := by
  have hlast : cs.getD (cs.length - 1) default = cs.getLast h := by
    rw [List.getLast_eq_getElem,
      List.getD_eq_getElem cs default (by have := List.length_pos.mpr h; omega)]
  rw [hlast, List.dropLast_append_getLast h]

/-- Concrete right-angle computation: the vertex (1, 1) between (0, 0) and
(2, 0) has a 90 degree angle. -/
lemma angleValue_right_angle : angleValue ((0:ℝ), (0:ℝ)) (1, 1) (2, 0) = 90 := by
  unfold angleValue
  have hd : ((0:ℝ) - 1) * (2 - 1) + (0 - 1) * (0 - 1) = 0 := by norm_num
  simp only [hd]
  rw [zero_div]
  have hmin : min (1:ℝ) 0 = 0 := by norm_num
  have hmax : max (-1:ℝ) 0 = 0 := by norm_num
  rw [hmin, hmax, Real.arccos_zero]
  field_simp
  ring

/-- Concrete edge length: the distance between (0, 0) and (1, 1) exceeds 1. -/
lemma euclid_gt_one_a : euclid ((0:ℝ), (0:ℝ)) (1, 1) > 1 := by
  unfold euclid
  have h2 : ((0:ℝ) - 1) ^ 2 + ((0:ℝ) - 1) ^ 2 = 2 := by norm_num
  rw [h2]
  exact (Real.lt_sqrt (by norm_num)).mpr (by norm_num)

/-- Concrete edge length: the distance between (1, 1) and (2, 0) exceeds 1. -/
lemma euclid_gt_one_b : euclid ((1:ℝ), (1:ℝ)) (2, 0) > 1 := by
  unfold euclid
  have h2 : ((1:ℝ) - 2) ^ 2 + ((1:ℝ) - 0) ^ 2 = 2 := by norm_num
  rw [h2]
  exact (Real.lt_sqrt (by norm_num)).mpr (by norm_num)

/-- A concrete spike: the right-angle vertex (1, 1) of the triple
(0, 0), (1, 1), (2, 0) under threshold 91 degrees and minimum distance 1. -/
lemma isSpike_right_angle : isSpike ((0:ℝ), (0:ℝ)) (1, 1) (2, 0) 91 1 := by
  rw [isSpike_iff]
  refine ⟨by norm_num [Prod.ext_iff], by norm_num [Prod.ext_iff], ?_,
    euclid_gt_one_a, euclid_gt_one_b⟩
  rw [angleValue_right_angle]
  norm_num

/-- The filter on a non-empty geometry with a tag other than LineString or
Polygon raises `AttributeError` (the pass-through guard in the source tests
the function object `is_polygon` instead of calling it and never fires, and
the geometry has no `exterior` attribute). -/
lemma other_nonempty_raises (t m : ℝ) :
    removeSpikesFromGeometry (.other false) t m = .error .attributeError := by
  simp [removeSpikesFromGeometry, Geometry.isEmptyG]

/-- C1: for every LineString input (shapely LineStrings have 0 or at least 2
coordinates, hence length ≠ 1) and all thresholds, the filtered coordinate
sequence is the original first coordinate, then exactly those interior
coordinates whose original-input neighbour triple is not a spike, then the
original last coordinate; with fewer than 3 coordinates the path comes back
unchanged. -/
theorem C1_line_filter_shape (cs : List Coord) (t m : ℝ) (hwf : cs.length ≠ 1) :
    removeSpikesFromGeometry (.line cs) t m =
      .ok (.line (if cs.length < 3 then cs
        else cs.getD 0 default ::
          (keptInterior cs t m ++ [cs.getD (cs.length - 1) default]))) := by
  by_cases h3 : cs.length < 3
  · rw [if_pos h3]
    match cs, hwf with
    | [], _ => simp [removeSpikesFromGeometry, Geometry.isEmptyG]
    | [a], h => exact absurd rfl h
    | [a, b], _ =>
        rw [line_filter [a, b] t m (by simp)]
        simp [keptInterior]
    | a :: b :: c :: rest, _ =>
        exfalso
        simp only [List.length_cons] at h3
        omega
  · rw [if_neg h3]
    exact line_filter cs t m (by intro hc; rw [hc] at h3; simp at h3)

/-- Witness for C1 on the concrete two-coordinate path [(0,0), (1,1)]. -/
theorem C1_line_filter_shape_witness :
    removeSpikesFromGeometry (.line [((0:ℝ), (0:ℝ)), (1, 1)]) 5 0 =
      .ok (.line (if ([((0:ℝ), (0:ℝ)), (1, 1)] : List Coord).length < 3 then
          [((0:ℝ), (0:ℝ)), (1, 1)]
        else ([((0:ℝ), (0:ℝ)), (1, 1)] : List Coord).getD 0 default ::
          (keptInterior [((0:ℝ), (0:ℝ)), (1, 1)] 5 0 ++
            [([((0:ℝ), (0:ℝ)), (1, 1)] : List Coord).getD
              (([((0:ℝ), (0:ℝ)), (1, 1)] : List Coord).length - 1) default]))) :=
  C1_line_filter_shape [((0:ℝ), (0:ℝ)), (1, 1)] 5 0 (by simp)

/-- C2: for every non-empty well-formed Polygon ring the result is the ring
constructor applied to: nothing (junction a spike on its cyclic neighbours
coords[n-2], coords[0], coords[1]) or the junction vertex, followed by the
retained interior vertices; the duplicated closing coordinate at index n-1 is
never separately tested or appended. -/
theorem C2_polygon_filter_shape (cs : List Coord) (t m : ℝ) (hne : cs ≠ [])
    (hwf : RingWF cs) :
    removeSpikesFromGeometry (.polygon cs) t m =
      mkPolygon ((if isSpike (cs.getD (cs.length - 2) default) (cs.getD 0 default)
          (cs.getD 1 default) t m then ([] : List Coord) else [cs.getD 0 default]) ++
        keptInterior cs t m) := by
  rcases hwf with h | h
  · exact absurd h hne
  · exact polygon_filter cs t m (by omega)

/-- Witness for C2 on the concrete triangle ring
[(0,0), (1,0), (0,1), (0,0)]. -/
theorem C2_polygon_filter_shape_witness :
    removeSpikesFromGeometry
        (.polygon [((0:ℝ), (0:ℝ)), (1, 0), (0, 1), (0, 0)]) 1 0 =
      mkPolygon ((if isSpike
          (([((0:ℝ), (0:ℝ)), (1, 0), (0, 1), (0, 0)] : List Coord).getD 2 default)
          (([((0:ℝ), (0:ℝ)), (1, 0), (0, 1), (0, 0)] : List Coord).getD 0 default)
          (([((0:ℝ), (0:ℝ)), (1, 0), (0, 1), (0, 0)] : List Coord).getD 1 default)
          1 0 then ([] : List Coord)
        else [([((0:ℝ), (0:ℝ)), (1, 0), (0, 1), (0, 0)] : List Coord).getD 0 default]) ++
        keptInterior [((0:ℝ), (0:ℝ)), (1, 0), (0, 1), (0, 0)] 1 0) :=
  C2_polygon_filter_shape [((0:ℝ), (0:ℝ)), (1, 0), (0, 1), (0, 0)] 1 0
    (by simp) (Or.inr ⟨by simp, by simp⟩)

/-- C3 (code behaviour at the failing input): a non-empty geometry tagged
neither LineString nor Polygon is not passed through unchanged; the filter
raises AttributeError because the guard `not is_line() and not is_polygon`
omits the call parentheses and is always false. -/
theorem C3_other_not_passed_through :
    ∀ t m : ℝ, removeSpikesFromGeometry (.other false) t m = .error .attributeError :=
  other_nonempty_raises

/-- C4 (code behaviour): the filter is not total — there is an input on which
no Geometry is returned (a non-empty Point-like geometry raises
AttributeError). -/
theorem C4_not_total :
    ¬ ∀ (g : Geometry) (t m : ℝ), ∃ g' : Geometry,
        removeSpikesFromGeometry g t m = .ok g' := by
  intro h
  obtain ⟨g', hg⟩ := h (.other false) 1 0
  rw [other_nonempty_raises 1 0] at hg
  exact Except.noConfusion hg

/-- C5: `_is_spike` holds exactly on non-degenerate triples whose angle is
strictly below the threshold and whose two adjacent edges are strictly longer
than the minimum distance (planar Euclidean length); on a degenerate triple
(`prev == curr` or `curr == next`) it is false for all thresholds. -/
theorem C5_isSpike_characterization (a b c : Coord) (t m : ℝ) :
    isSpike a b c t m ↔
      a ≠ b ∧ b ≠ c ∧ angleValue a b c < t ∧ euclid a b > m ∧ euclid b c > m :=
  isSpike_iff a b c t m

/-- C6: `_calculate_angle` raises exactly when `a == b` or `b == c`, and the
value it otherwise returns always lies in the closed interval [0, 180]. -/
theorem C6_calculateAngle_spec (a b c : Coord) :
    calculateAngle a b c =
      (if a = b ∨ b = c then .error () else .ok (angleValue a b c)) ∧
    0 ≤ angleValue a b c ∧ angleValue a b c ≤ 180 :=
  ⟨calculateAngle_eq a b c, angleValue_nonneg a b c, angleValue_le_180 a b c⟩

/-- The last element of `x :: (ys ++ [z])` is `z`. -/
lemma getD_sandwich_last (x z : Coord) (ys : List Coord) :
    (x :: (ys ++ [z])).getD ((x :: (ys ++ [z])).length - 1) default = z := by
  have hlen : (x :: (ys ++ [z])).length - 1 = ys.length + 1 := by simp
  rw [hlen, List.getD_cons_succ]
  rw [List.getD_eq_getElem (ys ++ [z]) default (by simp)]
  simp

/-- C7: for every non-empty LineString input and all thresholds the output is
a LineString whose first element is the input's first coordinate and whose
last element is the input's last coordinate. -/
theorem C7_endpoints_retained (cs : List Coord) (t m : ℝ) (h : cs ≠ []) :
    ∃ out : List Coord,
      removeSpikesFromGeometry (.line cs) t m = .ok (.line out) ∧
        out ≠ [] ∧ out.getD 0 default = cs.getD 0 default ∧
        out.getD (out.length - 1) default = cs.getD (cs.length - 1) default := by
  refine ⟨_, line_filter cs t m h, by simp, by simp, ?_⟩
  exact getD_sandwich_last _ _ _

/-- Witness for C7 on the concrete path [(0,0), (1,1), (2,2)]. -/
theorem C7_endpoints_retained_witness :
    ∃ out : List Coord,
      removeSpikesFromGeometry (.line [((0:ℝ), (0:ℝ)), (1, 1), (2, 2)]) 5 0 =
          .ok (.line out) ∧
        out ≠ [] ∧
        out.getD 0 default =
          ([((0:ℝ), (0:ℝ)), (1, 1), (2, 2)] : List Coord).getD 0 default ∧
        out.getD (out.length - 1) default =
          ([((0:ℝ), (0:ℝ)), (1, 1), (2, 2)] : List Coord).getD 2 default :=
  C7_endpoints_retained [((0:ℝ), (0:ℝ)), (1, 1), (2, 2)] 5 0 (by simp)

/-- C8: `_is_spike` is monotone in its thresholds — a spike stays a spike
when the angle threshold is raised, and when the minimum distance is
lowered. -/
theorem C8_isSpike_monotone (a b c : Coord) (t1 t2 m1 m2 : ℝ)
    (hs : isSpike a b c t1 m1) :
    (t1 ≤ t2 → isSpike a b c t2 m1) ∧ (m2 ≤ m1 → isSpike a b c t1 m2) := by
  rw [isSpike_iff] at hs
  obtain ⟨hab, hbc, hang, hd1, hd2⟩ := hs
  constructor
  · intro ht
    rw [isSpike_iff]
    exact ⟨hab, hbc, lt_of_lt_of_le hang ht, hd1, hd2⟩
  · intro hm
    rw [isSpike_iff]
    exact ⟨hab, hbc, hang, lt_of_le_of_lt hm hd1, lt_of_le_of_lt hm hd2⟩

/-- Witness for C8: the right-angle spike at threshold 91 and minimum
distance 1 survives raising the threshold to 100 and lowering the distance
to 0. -/
theorem C8_isSpike_monotone_witness :
    isSpike ((0:ℝ), (0:ℝ)) (1, 1) (2, 0) 100 1 ∧
      isSpike ((0:ℝ), (0:ℝ)) (1, 1) (2, 0) 91 0 :=
  ⟨(C8_isSpike_monotone _ _ _ 91 100 1 0 isSpike_right_angle).1 (by norm_num),
   (C8_isSpike_monotone _ _ _ 91 100 1 0 isSpike_right_angle).2 (by norm_num)⟩

/-- C10: a LineString with at least two coordinates never collapses below two
coordinates — the retained endpoints keep the output a structurally valid
polyline. -/
theorem C10_line_never_collapses (cs : List Coord) (t m : ℝ) (h : 2 ≤ cs.length) :
    ∃ out : List Coord,
      removeSpikesFromGeometry (.line cs) t m = .ok (.line out) ∧ 2 ≤ out.length := by
  refine ⟨_, line_filter cs t m (by intro hc; rw [hc] at h; simp at h), ?_⟩
  simp only [List.length_cons, List.length_append, List.length_singleton]
  omega

/-- Witness for C10 on the concrete path [(0,0), (1, 100), (2, 0)]. -/
theorem C10_line_never_collapses_witness :
    ∃ out : List Coord,
      removeSpikesFromGeometry (.line [((0:ℝ), (0:ℝ)), (1, 100), (2, 0)]) 5 0 =
          .ok (.line out) ∧ 2 ≤ out.length :=
  C10_line_never_collapses [((0:ℝ), (0:ℝ)), (1, 100), (2, 0)] 5 0 (by simp)

/-- Optional head of a non-empty list, in `getD` form. -/
lemma head?_eq_getD (l : List Coord) (h : l ≠ []) :
    l.head? = some (l.getD 0 default) := by
  rw [List.head?_eq_head h, List.head_eq_getElem,
    List.getD_eq_getElem l default (List.length_pos.mpr h)]

/-- Optional last element of a non-empty list, in `getD` form. -/
lemma getLast?_eq_getD (l : List Coord) (h : l ≠ []) :
    l.getLast? = some (l.getD (l.length - 1) default) := by
  rw [List.getLast?_eq_getLast _ h, List.getLast_eq_getElem,
    List.getD_eq_getElem l default (by have := List.length_pos.mpr h; omega)]

/-- `getLastD` of a non-empty list, in `getD` form. -/
lemma getLastD_eq_getD (l : List Coord) (h : l ≠ []) :
    l.getLastD default = l.getD (l.length - 1) default := by
  rw [List.getLastD_eq_getLast?, getLast?_eq_getD l h]
  rfl

/-- The one-element take of a non-empty list, in `getD` form. -/
lemma take_one_eq_getD (l : List Coord) (h : l ≠ []) :
    l.take 1 = [l.getD 0 default] := by
  match l, h with
  | x :: xs, _ => simp [List.getD_cons_zero]

/-- `dropLast` agrees with the original list at every index it keeps. -/
lemma dropLast_getD (l : List Coord) (i : ℕ) (h : i < l.length - 1) :
    l.dropLast.getD i default = l.getD i default := by
  rw [List.getD_eq_getElem l.dropLast default (by simp [List.length_dropLast]; omega),
    List.getD_eq_getElem l default (by omega), List.getElem_dropLast]

/-- With no spikes anywhere, a LineString of valid length comes back with its
coordinate sequence unchanged. -/
lemma line_identity_of_no_spike (cs : List Coord) (t m : ℝ)
    (hns : ∀ a b c : Coord, ¬ isSpike a b c t m) (hwf : cs.length ≠ 1) :
    removeSpikesFromGeometry (.line cs) t m = .ok (.line cs) := by
  by_cases he : cs = []
  · subst he
    simp [removeSpikesFromGeometry, Geometry.isEmptyG]
  · have h2 : 2 ≤ cs.length := by
      have := List.length_pos.mpr he
      omega
    rw [line_filter cs t m he, keptInterior_of_no_spike cs t m hns]
    have hstep :
        cs.getD 0 default ::
            (((List.range' 1 (cs.length - 2)).map fun i => cs.getD i default) ++
              [cs.getD (cs.length - 1) default]) =
          (cs.getD 0 default ::
            ((List.range' 1 (cs.length - 2)).map fun i => cs.getD i default)) ++
            [cs.getD (cs.length - 1) default] := by
      simp
    rw [hstep, head_cons_interior_eq_dropLast cs h2, dropLast_append_getD cs he]

/-- With no spikes anywhere, a well-formed Polygon ring whose junction vertex
does not recur right before the seam comes back with its coordinate sequence
unchanged. -/
lemma polygon_identity_of_no_spike (cs : List Coord) (t m : ℝ)
    (hns : ∀ a b c : Coord, ¬ isSpike a b c t m) (hwf : RingWF cs)
    (hj : cs ≠ [] → cs.getD (cs.length - 2) default ≠ cs.getD 0 default) :
    removeSpikesFromGeometry (.polygon cs) t m = .ok (.polygon cs) := by
  rcases hwf with he | ⟨h4, hclosed⟩
  · subst he
    simp [removeSpikesFromGeometry, Geometry.isEmptyG]
  · have hne : cs ≠ [] := by
      intro hc
      rw [hc] at h4
      simp at h4
    rw [polygon_filter cs t m (by omega), if_neg (hns _ _ _),
      keptInterior_of_no_spike cs t m hns]
    have hdrop :
        ([cs.getD 0 default] ++
            ((List.range' 1 (cs.length - 2)).map fun i => cs.getD i default)) =
          cs.dropLast := by
      rw [List.singleton_append]
      exact head_cons_interior_eq_dropLast cs (by omega)
    rw [hdrop]
    have hdne : cs.dropLast ≠ [] := by
      intro hc
      have := congrArg List.length hc
      simp [List.length_dropLast] at this
      omega
    have hdlen : cs.dropLast.length = cs.length - 1 := List.length_dropLast cs
    have hlast? : cs.dropLast.getLast? = some (cs.getD (cs.length - 2) default) := by
      rw [getLast?_eq_getD _ hdne, hdlen]
      congr 1
      rw [dropLast_getD cs (cs.length - 1 - 1) (by omega)]
      have hidx : cs.length - 1 - 1 = cs.length - 2 := by omega
      rw [hidx]
    have hhead? : cs.dropLast.head? = some (cs.getD 0 default) := by
      rw [head?_eq_getD _ hdne, dropLast_getD cs 0 (by omega)]
    have hclose : closeRing cs.dropLast = cs := by
      unfold closeRing
      rw [if_neg, take_one_eq_getD _ hdne, dropLast_getD cs 0 (by omega)]
      · have hlastc : cs.getD 0 default = cs.getD (cs.length - 1) default := by
          rw [← getLastD_eq_getD cs hne, hclosed]
        rw [hlastc]
        exact dropLast_append_getD cs hne
      · rw [hlast?, hhead?]
        intro hc
        exact hj hne (Option.some.inj hc)
    unfold mkPolygon
    rw [if_neg hdne, hclose, if_neg (by omega)]

/-- C9 (amended): with a non-positive angle threshold no vertex is classified
as a spike (the computed angle is never negative, so the strict comparison
never holds), every LineString of valid length comes back with its coordinate
sequence unchanged, and every well-formed Polygon ring whose junction vertex
does not also occur at index n-2 comes back with its coordinate sequence
unchanged. -/
theorem C9_nonpos_threshold_identity (t m : ℝ) (ht : t ≤ 0) :
    (∀ a b c : Coord, ¬ isSpike a b c t m) ∧
    (∀ cs : List Coord, cs.length ≠ 1 →
        removeSpikesFromGeometry (.line cs) t m = .ok (.line cs)) ∧
    (∀ cs : List Coord, RingWF cs →
        (cs ≠ [] → cs.getD (cs.length - 2) default ≠ cs.getD 0 default) →
        removeSpikesFromGeometry (.polygon cs) t m = .ok (.polygon cs)) :=
  ⟨fun a b c => not_isSpike_of_nonpos ht a b c m,
   fun cs h =>
     line_identity_of_no_spike cs t m (fun a b c => not_isSpike_of_nonpos ht a b c m) h,
   fun cs hwf hj =>
     polygon_identity_of_no_spike cs t m
       (fun a b c => not_isSpike_of_nonpos ht a b c m) hwf hj⟩

/-- Counterexample to C9 as stated: the constructible ring
[(0,0), (1,0), (0,1), (0,0), (0,0)] (closed, 5 coordinates) filtered with
angle threshold 0 does not come back with its coordinate sequence unchanged —
no vertex is a spike, yet rebuilding the ring from coords[0..n-2] yields the
4-coordinate ring [(0,0), (1,0), (0,1), (0,0)]. -/
theorem C9_identity_counterexample :
    removeSpikesFromGeometry
        (.polygon [((0:ℝ), (0:ℝ)), (1, 0), (0, 1), (0, 0), (0, 0)]) 0 0 ≠
      .ok (.polygon [((0:ℝ), (0:ℝ)), (1, 0), (0, 1), (0, 0), (0, 0)]) := by
  have hns : ∀ a b c : Coord, ¬ isSpike a b c 0 0 := fun a b c =>
    not_isSpike_of_nonpos (le_refl (0:ℝ)) a b c 0
  rw [polygon_filter _ 0 0 (by simp), if_neg (hns _ _ _),
    keptInterior_of_no_spike _ 0 0 hns]
  have hlist :
      ([([((0:ℝ), (0:ℝ)), (1, 0), (0, 1), (0, 0), (0, 0)] : List Coord).getD 0 default] ++
        (List.range' 1
            (([((0:ℝ), (0:ℝ)), (1, 0), (0, 1), (0, 0), (0, 0)] : List Coord).length - 2)).map
          fun i =>
            ([((0:ℝ), (0:ℝ)), (1, 0), (0, 1), (0, 0), (0, 0)] : List Coord).getD i default) =
      [((0:ℝ), (0:ℝ)), (1, 0), (0, 1), (0, 0)] := rfl
  rw [hlist]
  have hcr : closeRing [((0:ℝ), (0:ℝ)), (1, 0), (0, 1), (0, 0)] =
      [((0:ℝ), (0:ℝ)), (1, 0), (0, 1), (0, 0)] := by
    unfold closeRing
    have hcond : ([((0:ℝ), (0:ℝ)), (1, 0), (0, 1), (0, 0)] : List Coord).getLast? =
        ([((0:ℝ), (0:ℝ)), (1, 0), (0, 1), (0, 0)] : List Coord).head? := rfl
    rw [if_pos hcond]
  have hmk : mkPolygon [((0:ℝ), (0:ℝ)), (1, 0), (0, 1), (0, 0)] =
      .ok (.polygon [((0:ℝ), (0:ℝ)), (1, 0), (0, 1), (0, 0)]) := by
    unfold mkPolygon
    rw [if_neg (by simp), hcr, if_neg (by simp)]
  rw [hmk]
  intro hc
  simp only [Except.ok.injEq, Geometry.polygon.injEq] at hc
  have hlen := congrArg List.length hc
  simp at hlen

/-- Witness for the amended C9 at threshold 0: a concrete non-spike, a
concrete unchanged path, and a concrete unchanged ring. -/
theorem C9_nonpos_threshold_identity_witness :
    (¬ isSpike ((0:ℝ), (0:ℝ)) (1, 1) (2, 0) 0 0) ∧
    removeSpikesFromGeometry (.line [((0:ℝ), (0:ℝ)), (1, 1)]) 0 0 =
      .ok (.line [((0:ℝ), (0:ℝ)), (1, 1)]) ∧
    removeSpikesFromGeometry (.polygon [((0:ℝ), (0:ℝ)), (1, 0), (0, 1), (0, 0)]) 0 0 =
      .ok (.polygon [((0:ℝ), (0:ℝ)), (1, 0), (0, 1), (0, 0)]) := by
  obtain ⟨h1, h2, h3⟩ := C9_nonpos_threshold_identity 0 0 (le_refl 0)
  refine ⟨h1 _ _ _, h2 _ (by simp), h3 _ (Or.inr ⟨by simp, rfl⟩) ?_⟩
  intro hne
  simp [Prod.ext_iff]
